import Mathlib

/-!
Verification of the RAG-Vision retrieval core (rag-vision-engine).

Shallow embedding of the Python services:
  backend/api/services/postprocessor.py   (Postprocessor)
  backend/api/services/preprocessor.py    (ImagePreprocessor)
  backend/api/services/support_index.py   (SupportIndex)
  backend/api/services/inference.py       (RagVisionInference.build_rag_images)
  backend/api/services/main.py            (RagVisionService.analyze)

Conventions:
  - text is modelled as `List Char`; Python string helpers (strip, lower,
    split, the two regular expressions used by the postprocessor and the
    base64 alphabet scan) are embedded character by character, restricted
    to ASCII (the service only ever compares against ASCII literals);
  - numpy float arrays become `List (List Rat)`; external collaborators
    (the CLIP encoder, PIL image decoding/resizing, the filesystem) are
    parameters of the definitions that call them;
  - Python exceptions become `Except String`.

All definitions are executable so claims can be evaluated on concrete data.
-/

namespace RagVision

/-! ## ASCII / Python string helpers -/

/-- Python whitespace (the characters matched by `str.strip()` and the regex
class `\s`), restricted to ASCII as used by the service. -/
def pyIsSpace (c : Char) : Bool :=
  c = ' ' || c = '\t' || c = '\n' || c = '\x0d' || c = '\x0b' || c = '\x0c'

/-- ASCII lower-casing, the fragment of Python `str.lower()` the service needs. -/
def asciiLower (c : Char) : Char :=
  if 'A' ≤ c ∧ c ≤ 'Z' then Char.ofNat (c.toNat + 32) else c

def lowerList (s : List Char) : List Char := s.map asciiLower

/-- Python `str.strip()`: drop whitespace at both ends. -/
def pyStrip (s : List Char) : List Char :=
  ((s.dropWhile pyIsSpace).reverse.dropWhile pyIsSpace).reverse

/-- Python `str.split()` with no argument: split on whitespace runs,
discarding empty pieces.  Fuel recursion; the fuel is the list length. -/
def pySplitWsAux : Nat → List Char → List (List Char)
  | 0, _ => []
  | _ + 1, [] => []
  | fuel + 1, c :: rest =>
    if pyIsSpace c then pySplitWsAux fuel rest
    else
      let w := (c :: rest).takeWhile (fun d => ¬ pyIsSpace d)
      w :: pySplitWsAux fuel ((c :: rest).dropWhile (fun d => ¬ pyIsSpace d))

def pySplitWs (s : List Char) : List (List Char) := pySplitWsAux (s.length + 1) s

/-- Case-insensitive literal match: if `s` begins with `lit` (compared after
ASCII lower-casing), return the rest of `s`. -/
def matchLitCI : List Char → List Char → Option (List Char)
  | [], s => some s
  | _, [] => none
  | p :: ps, c :: cs => if asciiLower c = p then matchLitCI ps cs else none

/-- Word characters of the regex class `[A-Za-z0-9_]`. -/
def isWordChar (c : Char) : Bool :=
  ('A' ≤ c ∧ c ≤ 'Z') || ('a' ≤ c ∧ c ≤ 'z') || ('0' ≤ c ∧ c ≤ '9') || c = '_'

/-! ## Postprocessor (backend/api/services/postprocessor.py)

`_extract_flag` runs `re.findall(r"([A-Za-z0-9_]*Flag\s*[:=]\s*.+)", text,
flags=re.IGNORECASE)`.  The scanner below embeds exactly that pattern:
leftmost, non-overlapping matches; the leading character class is greedy and
backtracks; `\s` also matches a newline while `.` does not. -/

def flagLit : List Char := [ 'f', 'l', 'a', 'g' ]

/-- Index of the last character of `l` that is not a newline, if any. -/
def lastNonNewline (l : List Char) : Option Nat :=
  let k := (l.reverse.takeWhile (fun c => c = '\n')).length
  if k = l.length then none else some (l.length - k - 1)

/-- Match `\s*[:=]\s*.+` at the head of `s`; returns the number of characters
consumed.  The second `\s*` is greedy but hands characters back to `.+` (which
cannot match a newline) when the input ends inside the whitespace run. -/
def matchFlagSep (s : List Char) : Option Nat :=
  let w1 := (s.takeWhile pyIsSpace).length
  match s.drop w1 with
  | [] => none
  | d :: s3 =>
    if d = ':' ∨ d = '=' then
      let w2 := s3.takeWhile pyIsSpace
      match s3.drop w2.length with
      | s4h :: s4t =>
        let v := (s4h :: s4t).takeWhile (fun c => c ≠ '\n')
        some (w1 + 1 + w2.length + v.length)
      | [] =>
        match lastNonNewline w2 with
        | none => none
        | some r => some (w1 + 1 + r + ((w2.drop r).takeWhile (fun c => c ≠ '\n')).length)
    else none

/-- Try the whole pattern at the head of `s` with the star consuming exactly
`j` word characters. -/
def matchFlagAtJ (s : List Char) (j : Nat) : Option Nat :=
  match matchLitCI flagLit (s.drop j) with
  | none => none
  | some rest =>
    match matchFlagSep rest with
    | none => none
    | some t => some (j + 4 + t)

/-- Greedy star: try `j`, then `j - 1`, ..., then `0`. -/
def matchFlagDesc (s : List Char) : Nat → Option Nat
  | 0 => matchFlagAtJ s 0
  | j + 1 =>
    match matchFlagAtJ s (j + 1) with
    | some n => some n
    | none => matchFlagDesc s j

/-- Full pattern attempt at the head of `s` (star bounded by the maximal run
of word characters); returns the match length. -/
def matchFlagAt (s : List Char) : Option Nat :=
  matchFlagDesc s (s.takeWhile isWordChar).length

/-- `re.findall`: scan left to right, collect non-overlapping matches. -/
def flagFindAllAux : Nat → List Char → List (List Char)
  | 0, _ => []
  | _ + 1, [] => []
  | fuel + 1, s@(_ :: rest) =>
    match matchFlagAt s with
    | some n => s.take n :: flagFindAllAux fuel (s.drop n)
    | none => flagFindAllAux fuel rest

def flagMatches (s : List Char) : List (List Char) := flagFindAllAux (s.length + 1) s

/-- Extracted flag: a boolean, or a piece of text. -/
inductive FlagVal where
  | bool (b : Bool)
  | str (s : List Char)
deriving DecidableEq

def trueLit : List Char := [ 't', 'r', 'u', 'e' ]
def falseLit : List Char := [ 'f', 'a', 'l', 's', 'e' ]

/-- `Postprocessor._extract_flag`. -/
def extract_flag (text : List Char) : Option FlagVal :=
  match (flagMatches text).getLast? with
  | some m => some (FlagVal.str (pyStrip m))
  | none =>
    let cleaned := pyStrip text
    if lowerList cleaned = trueLit then some (FlagVal.bool true)
    else if lowerList cleaned = falseLit then some (FlagVal.bool false)
    else if (pySplitWs cleaned).length = 1 then some (FlagVal.str cleaned)
    else none

/-- `_extract_explanation` runs `re.split(r"Explanation\s*[:=]\s*", text,
flags=re.IGNORECASE)` and keeps `parts[-1]`, i.e. the text after the last
delimiter occurrence. -/
def explLit : List Char :=
  [ 'e', 'x', 'p', 'l', 'a', 'n', 'a', 't', 'i', 'o', 'n' ]

/-- Match `Explanation\s*[:=]\s*` (case-insensitive) at the head of `s`;
returns the number of characters consumed. -/
def matchExplAt (s : List Char) : Option Nat :=
  match matchLitCI explLit s with
  | none => none
  | some s1 =>
    let w1 := (s1.takeWhile pyIsSpace).length
    match s1.drop w1 with
    | [] => none
    | d :: s3 =>
      if d = ':' ∨ d = '=' then some (11 + w1 + 1 + (s3.takeWhile pyIsSpace).length)
      else none

/-- Scan for delimiter occurrences; remember the text after the last one. -/
def explLastTailAux : Nat → List Char → Option (List Char) → Option (List Char)
  | 0, _, acc => acc
  | _ + 1, [], acc => acc
  | fuel + 1, s@(_ :: rest), acc =>
    match matchExplAt s with
    | some n => explLastTailAux fuel (s.drop n) (some (s.drop n))
    | none => explLastTailAux fuel rest acc

def explLastTail (s : List Char) : Option (List Char) := explLastTailAux (s.length + 1) s none

/-- `Postprocessor._extract_explanation`. -/
def extract_explanation (text : List Char) : Option (List Char) :=
  match explLastTail text with
  | none => none
  | some rem =>
    let e := pyStrip rem
    if e = [] then none else some e

/-- Result record of `Postprocessor.parse`. -/
structure Parsed where
  flag : Option FlagVal
  explanation : Option (List Char)
  raw : List Char
deriving DecidableEq

/-- `Postprocessor.parse`. -/
def parse (raw_response : List Char) : Parsed :=
  { flag := extract_flag raw_response
    explanation := extract_explanation raw_response
    raw := raw_response }

/-! ## Support index data model (backend/api/services/support_index.py) -/

abbrev Box := Nat × Nat × Nat × Nat

/-- One metadata entry per extracted patch (source dict
`{label, image_path, patch_idx, box}`). -/
structure PatchRecord where
  label : String
  image_path : String
  patch_idx : Nat
  box : Box
deriving DecidableEq

/-- Mutable state of a `SupportIndex`: `self.vectors` (a stacked numpy array,
`None` before the first successful image) and `self.meta`. -/
structure SIState where
  vectors : Option (List (List Rat))
  meta : List PatchRecord
deriving DecidableEq

/-- External collaborators of the index: the filesystem and PIL.
`openImage path = none` models `Image.open(path).convert("RGB")` raising. -/
structure FS (Img : Type) where
  isdir : String → Bool
  listdir : String → List String
  openImage : String → Option Img
  resize : Img → Nat → Img

/-- `os.path.splitext(path)[1]`: the extension of the last path component;
a run of leading dots does not start an extension. -/
def splitextExt (path : String) : String :=
  let base := (path.toList.splitOn '/').getLastD []
  let n := base.length
  let k := (base.reverse.takeWhile (fun c => c ≠ '.')).length
  if k = n then ""
  else if (base.take (n - k - 1)).all (fun c => c = '.') then ""
  else String.mk (base.drop (n - k - 1))

def VALID_EXTS : List String := [".jpg", ".jpeg", ".png", ".bmp"]

/-- `SupportIndex._is_image`. -/
def isImageFile (path : String) : Bool :=
  VALID_EXTS.contains (String.mk (lowerList (splitextExt path).toList))

/-- `SupportIndex._patch_coords`: the (left, top, right, bottom) boxes of the
`(res // patch)²` grid, outer loop over `y`, inner over `x`. -/
def patchCoords (res patch : Nat) : List Box :=
  (List.range (res / patch)).flatMap (fun y =>
    (List.range (res / patch)).map (fun x =>
      (x * patch, y * patch, x * patch + patch, y * patch + patch)))

/-- Climb from `acc` while the next square still fits under `n`. -/
def isqrtAux (n : Nat) : Nat → Nat → Nat
  | 0, acc => acc
  | fuel + 1, acc =>
    if (acc + 1) * (acc + 1) ≤ n then isqrtAux n fuel (acc + 1) else acc

/-- `int(math.sqrt(n))` on a natural number: the greatest `m` with
`m * m ≤ n`.  Structurally recursive so that concrete runs reduce in the
kernel. -/
def intSqrt (n : Nat) : Nat := isqrtAux n n 0

/-- `SupportIndex._get_patch_embeddings`: the CLIP encoder (external
collaborator `clip`) yields the CLS-dropped, L2-normalized patch-token rows;
the code reshapes them into an `(s, s, dim)` grid with `s = int(sqrt(count))`
— a reshape every caller immediately flattens back, so the row list passes
through unchanged — and the reshape raises when the token count is not a
perfect square. -/
def getPatchEmbeddings {Img : Type} (clip : Img → List (List Rat)) (img : Img) :
    Except String (List (List Rat)) :=
  let tokens := clip img
  if intSqrt tokens.length * intSqrt tokens.length = tokens.length then Except.ok tokens
  else Except.error "cannot reshape patch token grid"

/-- One iteration of the file loop in `SupportIndex._process_folder`:
skip non-image extensions, skip files whose decode raises, otherwise stack the
patch embeddings and append one `PatchRecord` per grid box. -/
def processFile {Img : Type} (fs : FS Img) (clip : Img → List (List Rat))
    (res patch : Nat) (folder label : String) (st : SIState) (fname : String) :
    Except String SIState :=
  let path := folder ++ "/" ++ fname
  if ¬ isImageFile path then Except.ok st
  else
    match fs.openImage path with
    | none => Except.ok st
    | some img =>
      match getPatchEmbeddings clip (fs.resize img res) with
      | Except.error e => Except.error e
      | Except.ok vecs =>
        Except.ok
          { vectors := some (st.vectors.getD [] ++ vecs)
            meta := st.meta ++ (patchCoords res patch).enum.map
              (fun ib => { label := label, image_path := path, patch_idx := ib.1, box := ib.2 }) }

/-- `SupportIndex._process_folder`. -/
def processFolder {Img : Type} (fs : FS Img) (clip : Img → List (List Rat))
    (res patch : Nat) (folder label : String) (st : SIState) : Except String SIState :=
  (fs.listdir folder).foldlM (processFile fs clip res patch folder label) st

def noVectorsMsg : String := "SupportIndex: No vectors built."
def notBuiltMsg : String := "SupportIndex: build() must be called first."

/-- One iteration of the class loop in `SupportIndex.build`: a class whose
directory is missing is skipped (fail-soft). -/
def buildStep {Img : Type} (fs : FS Img) (clip : Img → List (List Rat))
    (res patch : Nat) (st : SIState) (ld : String × String) : Except String SIState :=
  if fs.isdir ld.2 then processFolder fs clip res patch ld.2 ld.1 st else Except.ok st

/-- `SupportIndex.build`: a logged no-op when vectors are already present;
otherwise process every configured class and fail if no vectors were built.
`class_dirs` is the insertion-ordered association list behind the Python dict. -/
def build {Img : Type} (fs : FS Img) (clip : Img → List (List Rat))
    (res patch : Nat) (class_dirs : List (String × String)) (st : SIState) :
    Except String SIState :=
  if st.vectors.isSome then Except.ok st
  else
    match class_dirs.foldlM (buildStep fs clip res patch) st with
    | Except.error e => Except.error e
    | Except.ok st1 =>
      if st1.vectors.isSome then Except.ok st1 else Except.error noVectorsMsg

/-! ## Retrieval -/

/-- Row dot product (`S @ q` is this, one row at a time). -/
def dotQ (a b : List Rat) : Rat := (List.zipWith (fun x y => x * y) a b).sum

/-- Comparison used by `argsort`: value at index `i` at most value at `j`. -/
def argRel (xs : List Rat) (i j : Nat) : Prop := xs.getD i 0 ≤ xs.getD j 0

instance (xs : List Rat) : DecidableRel (argRel xs) :=
  fun i j => inferInstanceAs (Decidable (xs.getD i 0 ≤ xs.getD j 0))

instance (xs : List Rat) : IsTotal Nat (argRel xs) :=
  ⟨fun i j => le_total (xs.getD i 0) (xs.getD j 0)⟩

instance (xs : List Rat) : IsTrans Nat (argRel xs) :=
  ⟨fun _ _ _ h1 h2 => le_trans h1 h2⟩

/-- `numpy.argsort`: the indices of `xs` ordered by ascending value (ties in
some fixed order; the source imposes no tie rule). -/
def argsortAsc (xs : List Rat) : List Nat :=
  List.insertionSort (argRel xs) (List.range xs.length)

/-- Python slice `a[-k:]` for nonnegative `k`: the whole list when `k = 0`
(since `-0 = 0`), else the last `min k len` elements. -/
def pySliceLast {α : Type} (k : Nat) (l : List α) : List α :=
  if k = 0 then l else l.drop (l.length - k)

/-- A retrieval result row (source dict `{query_patch_idx, sim, ref}`). -/
structure Evidence where
  query_patch_idx : Nat
  sim : Rat
  ref : PatchRecord
deriving DecidableEq

def dummyRecord : PatchRecord := { label := "", image_path := "", patch_idx := 0, box := (0, 0, 0, 0) }

/-- Sum of squared entries; a vector is L2-unit-normalized when this is 1. -/
def sumSq (v : List Rat) : Rat := (v.map (fun x => x ^ 2)).sum

/-- `sims = S @ q`: the similarity of one query patch against every support
row. -/
def simsOf (S : List (List Rat)) (q : List Rat) : List Rat :=
  S.map (fun row => dotQ row q)

/-- The evidence rows one query patch emits: `top = sims.argsort()[-k:][::-1]`,
then one row per selected index. -/
def emissionsFor (S : List (List Rat)) (meta : List PatchRecord) (k : Nat)
    (qp : Nat × List Rat) : List Evidence :=
  ((pySliceLast k (argsortAsc (simsOf S qp.2))).reverse).map (fun idx =>
    { query_patch_idx := qp.1
      sim := (simsOf S qp.2).getD idx 0
      ref := meta.getD idx dummyRecord })

/-- All evidence rows, in emission order (query patches in order, each patch's
top-k selection in descending-similarity order). -/
def rawEvidence (S : List (List Rat)) (meta : List PatchRecord) (k : Nat)
    (qvecs : List (List Rat)) : List Evidence :=
  qvecs.enum.flatMap (emissionsFor S meta k)

/-! Python-dict helpers for the `class_score` accumulator (`dict.get` with
default, assignment preserving insertion order). -/

def dictSet : List (String × Rat) → String → Rat → List (String × Rat)
  | [], l, v => [(l, v)]
  | kv :: rest, l, v => if kv.1 = l then (kv.1, v) :: rest else kv :: dictSet rest l v

def dictGetD : List (String × Rat) → String → Rat → Rat
  | [], _, d => d
  | kv :: rest, l, d => if kv.1 = l then kv.2 else dictGetD rest l d

def dictHas (m : List (String × Rat)) (l : String) : Bool :=
  m.any (fun kv => kv.1 = l)

def dictLookup : List (String × Rat) → String → Option Rat
  | [], _ => none
  | kv :: rest, l => if kv.1 = l then some kv.2 else dictLookup rest l

/-- `class_score[label] = class_score.get(label, 0.0) + sim`. -/
def scoreStep (m : List (String × Rat)) (e : Evidence) : List (String × Rat) :=
  dictSet m e.ref.label (dictGetD m e.ref.label 0 + e.sim)

/-- The class-score dict after all emissions (the source updates it inside the
same loop that appends the evidence rows, i.e. a fold over the emission
stream). -/
def classScoreOf (S : List (List Rat)) (meta : List PatchRecord) (k : Nat)
    (qvecs : List (List Rat)) : List (String × Rat) :=
  (rawEvidence S meta k qvecs).foldl scoreStep []

/-- Descending-by-similarity ordering used by the final
`evidence.sort(key=lambda e: e["sim"], reverse=True)`. -/
def evDesc (a b : Evidence) : Prop := b.sim ≤ a.sim

instance : DecidableRel evDesc := fun a b => inferInstanceAs (Decidable (b.sim ≤ a.sim))

instance : IsTotal Evidence evDesc := ⟨fun a b => le_total b.sim a.sim⟩

instance : IsTrans Evidence evDesc := ⟨fun _ _ _ h1 h2 => le_trans h2 h1⟩

/-- `SupportIndex.retrieve`.  Logging is dropped.  Python's stable
`list.sort(reverse=True)` is realized by the (also stable)
`List.insertionSort` with the descending-by-similarity relation. -/
def retrieve {Img : Type} (fs : FS Img) (clip : Img → List (List Rat)) (res : Nat)
    (st : SIState) (query : Img) (k : Nat) :
    Except String (List (String × Rat) × List Evidence) :=
  match st.vectors with
  | none => Except.error notBuiltMsg
  | some S =>
    if st.meta.isEmpty then Except.error notBuiltMsg
    else
      match getPatchEmbeddings clip (fs.resize query res) with
      | Except.error e => Except.error e
      | Except.ok qvecs =>
        Except.ok (classScoreOf S st.meta k qvecs,
          List.insertionSort evDesc (rawEvidence S st.meta k qvecs))

/-! ## Reasoning engine (backend/api/services/inference.py) -/

/-- `by_label.setdefault(label, []).append(e)` over a Python dict: append to
the existing group, else add a new group at the end. -/
def groupInsert : List (String × List Evidence) → Evidence → List (String × List Evidence)
  | [], e => [(e.ref.label, [e])]
  | g :: rest, e =>
    if g.1 = e.ref.label then (g.1, g.2 ++ [e]) :: rest
    else g :: groupInsert rest e

/-- `RagVisionInference.build_rag_images`; `crop` is the external `crop_patch`
(PIL re-decode, resize to 224, crop the bounding box). -/
def build_rag_images {Img : Type} (crop : String → Box → Img) (query_img : Img)
    (evidence : List Evidence) (max_per_class : Nat) : List Img :=
  let by_label := (evidence.foldl groupInsert []).map (fun g => (g.1, g.2.take max_per_class))
  query_img :: by_label.flatMap (fun g => g.2.map (fun e => crop e.ref.image_path e.ref.box))

/-! ## Image preprocessor (backend/api/services/preprocessor.py) -/

def b64CharVal (c : Char) : Option Nat :=
  if 'A' ≤ c ∧ c ≤ 'Z' then some (c.toNat - 65)
  else if 'a' ≤ c ∧ c ≤ 'z' then some (c.toNat - 97 + 26)
  else if '0' ≤ c ∧ c ≤ '9' then some (c.toNat - 48 + 52)
  else if c = '+' then some 62
  else if c = '/' then some 63
  else none

/-- Decode 6-bit groups into bytes (a final group of 3 or 2 data characters
yields 2 or 1 bytes). -/
def b64Bytes : List Nat → List Nat
  | a :: b :: c :: d :: rest =>
    (a * 4 + b / 16) :: ((b % 16) * 16 + c / 4) :: ((c % 4) * 64 + d) :: b64Bytes rest
  | [a, b, c] => [a * 4 + b / 16, (b % 16) * 16 + c / 4]
  | [a, b] => [a * 4 + b / 16]
  | [_] => []
  | [] => []

/-- Modelled from the Python stdlib (`base64.b64decode` with the default
`validate=False`, i.e. `binascii.a2b_base64` non-strict), which
`decode_base64_to_pil` calls directly on its input.  Characters outside the
base64 alphabet are DISCARDED — nothing strips a data-URI prefix, so alphabet
characters inside such a prefix are decoded as payload.  A `=` increments the
pad counter and finishes decoding once the current group holds at least two
data characters and is closed by the pads seen; input ending in an incomplete
group raises `binascii.Error("Incorrect padding")` (or the excess-character
error when a single character is left over). -/
def a2bBase64 : List Char → Nat → List Nat → Except String (List Nat)
  | [], _, acc =>
    if acc.length % 4 = 0 then Except.ok (b64Bytes acc)
    else if acc.length % 4 = 1 then
      Except.error "Invalid base64-encoded string: number of data characters cannot be 1 more than a multiple of 4"
    else Except.error "Incorrect padding"
  | c :: rest, pads, acc =>
    if c = '=' then
      if acc.length % 4 ≥ 2 ∧ acc.length % 4 + (pads + 1) ≥ 4 then Except.ok (b64Bytes acc)
      else a2bBase64 rest (pads + 1) acc
    else
      match b64CharVal c with
      | some v => a2bBase64 rest pads (acc ++ [v])
      | none => a2bBase64 rest pads acc

def pyB64Decode (s : List Char) : Except String (List Nat) := a2bBase64 s 0 []

/-- `ImagePreprocessor.decode_base64_to_pil`: base64-decode then PIL-open.
`openRGB` is the external PIL decode; `none` models a raised decode error. -/
def decode_base64_to_pil {Img : Type} (openRGB : List Nat → Option Img)
    (b64_str : List Char) : Except String Img :=
  match pyB64Decode b64_str with
  | Except.error e => Except.error e
  | Except.ok bs =>
    match openRGB bs with
    | none => Except.error "cannot identify image file"
    | some img => Except.ok img

/-- `ImagePreprocessor.preprocess`: decode, capture the original size, then
resize to the square target (BICUBIC, an external PIL operation) when a
target is configured, else pass the image through. -/
def preprocess {Img : Type} (openRGB : List Nat → Option Img) (sizeOf : Img → Nat × Nat)
    (resize : Img → Nat → Img) (target_size : Option Nat) (b64_image : List Char) :
    Except String (Img × (Nat × Nat)) :=
  match decode_base64_to_pil openRGB b64_image with
  | Except.error e => Except.error e
  | Except.ok img =>
    let orig_size := sizeOf img
    match target_size with
    | some t => Except.ok (resize img t, orig_size)
    | none => Except.ok (img, orig_size)

/-! ## Pipeline orchestrator (backend/api/services/main.py) -/

/-- The result record `RagVisionService.analyze` returns; absent dict keys are
`none`. -/
structure AnalyzeOut where
  success : Bool
  flag : Option FlagVal := none
  explanation : Option (List Char) := none
  class_scores : Option (List (String × Rat)) := none
  raw_response : Option (List Char) := none
  original_size : Option (Nat × Nat) := none
  imageId : Option String := none
  error : Option String := none
deriving DecidableEq

/-- `RagVisionService.analyze`.  The four fallible stages are parameters
(`Except.error` carries the message of a raised exception): class discovery,
index construction+build, preprocessing, and inference; postprocessing is the
pure `parse`.  The body mirrors the try/except: one catch-all boundary
converting any stage failure into `{success: false, error: str(e)}`. -/
def analyze {CD Idx Img : Type}
    (discover : Except String CD)
    (buildIndex : CD → Except String Idx)
    (preprocessStage : Except String (Img × (Nat × Nat)))
    (run : Idx → Img → Except String (List Char × List (String × Rat)))
    (imageId : Option String) : AnalyzeOut :=
  match (do
      let cd ← discover
      let idx ← buildIndex cd
      let pq ← preprocessStage
      let out ← run idx pq.1
      pure (out.1, out.2, pq.2) :
      Except String (List Char × List (String × Rat) × (Nat × Nat))) with
  | Except.ok out =>
    let parsed := parse out.1
    { success := true
      flag := parsed.flag
      explanation := parsed.explanation
      class_scores := some out.2.1
      raw_response := some out.1
      original_size := some out.2.2
      imageId := imageId }
  | Except.error e => { success := false, error := some e, imageId := imageId }

/-! ## Decidability plumbing and concrete fixtures used by witnesses -/

attribute [local semireducible] Rat.add Rat.mul Rat.sub Rat.inv

instance {ε α : Type} [DecidableEq ε] [DecidableEq α] : DecidableEq (Except ε α)
  | Except.ok x, Except.ok y =>
    if h : x = y then isTrue (by rw [h]) else isFalse (by intro hc; cases hc; exact h rfl)
  | Except.error x, Except.error y =>
    if h : x = y then isTrue (by rw [h]) else isFalse (by intro hc; cases hc; exact h rfl)
  | Except.ok x, Except.error y => isFalse (by intro hc; cases hc)
  | Except.error x, Except.ok y => isFalse (by intro hc; cases hc)

/-- A one-class, one-image filesystem (images are `Unit`). -/
def unitFS : FS Unit :=
  { isdir := fun _ => true
    listdir := fun _ => ["x.jpg"]
    openImage := fun _ => some ()
    resize := fun i _ => i }

/-- An encoder producing a single unit-norm 1-dimensional token. -/
def clipOne : Unit → List (List Rat) := fun _ => [[1]]

/-- An encoder producing four unit-norm tokens (a 2 × 2 grid). -/
def clipFour : Unit → List (List Rat) := fun _ => [[1, 0], [0, 1], [1, 0], [0, 1]]

def recA : PatchRecord := { label := "a", image_path := "p1", patch_idx := 0, box := (0, 0, 1, 1) }
def recB : PatchRecord := { label := "b", image_path := "p2", patch_idx := 0, box := (0, 0, 1, 1) }

/-- A built two-patch index: one support row per label. -/
def builtState : SIState := { vectors := some [[1], [-1]], meta := [recA, recB] }

/-- A filesystem on which every class directory is missing. -/
def noDirFS : FS Unit :=
  { isdir := fun _ => false
    listdir := fun _ => []
    openImage := fun _ => none
    resize := fun i _ => i }

/-- The state `build` produces from `unitFS`/`clipFour` at `res = 2`,
`patch = 1`, for the single class `("cat", "d")`. -/
def builtCat : SIState :=
  { vectors := some [[1, 0], [0, 1], [1, 0], [0, 1]]
    meta :=
      [ { label := "cat", image_path := "d/x.jpg", patch_idx := 0, box := (0, 0, 1, 1) }
      , { label := "cat", image_path := "d/x.jpg", patch_idx := 1, box := (1, 0, 2, 1) }
      , { label := "cat", image_path := "d/x.jpg", patch_idx := 2, box := (0, 1, 1, 2) }
      , { label := "cat", image_path := "d/x.jpg", patch_idx := 3, box := (1, 1, 2, 2) } ] }

/-- The labels of the groups, in group order. -/
def keysOf (m : List (String × List Evidence)) : List String := m.map (fun g => g.1)

/-- First-match association lookup with `[]` as the default. -/
def glookup : List (String × List Evidence) → String → List Evidence
  | [], _ => []
  | g :: rest, l => if g.1 = l then g.2 else glookup rest l

/-- The elements of a list in order of first appearance, without repetition
(the key order of a Python dict filled by insertion). -/
def firstOccur : List String → List String
  | [] => []
  | a :: rest => a :: firstOccur (rest.filter (fun x => decide (x ≠ a)))
termination_by l => l.length
decreasing_by
  simp only [List.length_cons]
  exact Nat.lt_succ_of_le (List.length_filter_le _ _)

/-- Number of rows of the EmbeddingMatrix (`0` while `vectors` is `None`). -/
def rowCount (st : SIState) : Nat := (st.vectors.getD []).length

/-- How many files of a class directory are actually processed: image
extension recognized and decode succeeds. -/
def folderCount {Img : Type} (fs : FS Img) (folder : String) : Nat :=
  ((fs.listdir folder).filter
    (fun f => isImageFile (folder ++ "/" ++ f) && (fs.openImage (folder ++ "/" ++ f)).isSome)).length

/-- How many support images a whole build run processes (missing directories
contribute nothing). -/
def processedCount {Img : Type} (fs : FS Img) : List (String × String) → Nat
  | [] => 0
  | ld :: rest => (if fs.isdir ld.2 then folderCount fs ld.2 else 0) + processedCount fs rest

/-! ## Theorems -/

theorem exbind_ok {α β : Type} (a : α) (f : α → Except String β) :
    (Except.ok a >>= f) = f a := rfl

theorem exbind_error {α β : Type} (m : String) (f : α → Except String β) :
    ((Except.error m : Except String α) >>= f) = Except.error m := rfl

theorem build_ok_isSome {Img : Type} (fs : FS Img) (clip : Img → List (List Rat))
    (res patch : Nat) (class_dirs : List (String × String)) (st st' : SIState)
    (h : build fs clip res patch class_dirs st = Except.ok st') :
    st'.vectors.isSome = true := by
  unfold build at h
  by_cases h0 : st.vectors.isSome = true
  · simp only [h0, if_true] at h
    cases h
    exact h0
  · simp only [h0, Bool.false_eq_true, if_false] at h
    cases hf : class_dirs.foldlM (buildStep fs clip res patch) st with
    | error e => rw [hf] at h; cases h
    | ok st1 =>
      rw [hf] at h
      by_cases h1 : st1.vectors.isSome = true
      · simp only [h1, if_true] at h
        cases h
        exact h1
      · simp only [h1, Bool.false_eq_true, if_false] at h
        cases h

/-- C5: calling `retrieve` on an index on which `build` has not completed
(no stored vectors, or empty metadata) fails with the not-built error, and it
does so before any embedding computation: the result is this error for every
filesystem and every encoder. -/
theorem c5_retrieve_before_build {Img : Type} (fs : FS Img) (clip : Img → List (List Rat))
    (res : Nat) (st : SIState) (query : Img) (k : Nat)
    (h : st.vectors = none ∨ st.meta = []) :
    retrieve fs clip res st query k = Except.error notBuiltMsg := by
  unfold retrieve
  rcases h with h | h
  · rw [h]
  · cases hv : st.vectors with
    | none => rfl
    | some S => simp [h]

/-- Witness for C5 at a fresh (unbuilt) index. -/
theorem c5_witness :
    retrieve unitFS clipOne 224 { vectors := none, meta := [] } () 1 =
      Except.error notBuiltMsg :=
  c5_retrieve_before_build unitFS clipOne 224 { vectors := none, meta := [] } () 1
    (Or.inl rfl)

/-- C7: `build` is idempotent.  A successful `build` leaves vectors present,
so a second call returns immediately as a no-op with the state (row count and
metadata) exactly as after the first call. -/
theorem c7_build_idempotent {Img : Type} (fs : FS Img) (clip : Img → List (List Rat))
    (res patch : Nat) (class_dirs : List (String × String)) (st st' : SIState)
    (h : build fs clip res patch class_dirs st = Except.ok st') :
    build fs clip res patch class_dirs st' = Except.ok st' := by
  have hs := build_ok_isSome fs clip res patch class_dirs st st' h
  unfold build
  simp [hs]

/-- Witness for C7: a concrete one-class build succeeds and a second `build`
returns the very same state. -/
theorem c7_witness :
    build unitFS clipFour 2 1 [("cat", "d")] { vectors := none, meta := [] } =
      Except.ok builtCat ∧
    build unitFS clipFour 2 1 [("cat", "d")] builtCat = Except.ok builtCat :=
  ⟨by decide, c7_build_idempotent unitFS clipFour 2 1 [("cat", "d")]
    { vectors := none, meta := [] } builtCat (by decide)⟩

/-- C1: `analyze` is a total error boundary.  If any stage (class discovery,
index build, preprocessing, inference) fails, the result is
`{success: false, error: message}`; postprocessing (`parse`) is pure and
cannot fail; when every stage succeeds the result is the success record
carrying flag, explanation, class_scores, raw_response and original_size.
No exception propagates: `analyze` is a total function into `AnalyzeOut`. -/
theorem c1_analyze_error_boundary {CD Idx Img : Type}
    (discover : Except String CD) (buildIndex : CD → Except String Idx)
    (preprocessStage : Except String (Img × (Nat × Nat)))
    (run : Idx → Img → Except String (List Char × List (String × Rat)))
    (imageId : Option String) :
    (∀ m, discover = Except.error m →
      analyze discover buildIndex preprocessStage run imageId =
        { success := false, error := some m, imageId := imageId }) ∧
    (∀ cd m, discover = Except.ok cd → buildIndex cd = Except.error m →
      analyze discover buildIndex preprocessStage run imageId =
        { success := false, error := some m, imageId := imageId }) ∧
    (∀ cd idx m, discover = Except.ok cd → buildIndex cd = Except.ok idx →
      preprocessStage = Except.error m →
      analyze discover buildIndex preprocessStage run imageId =
        { success := false, error := some m, imageId := imageId }) ∧
    (∀ cd idx q osize m, discover = Except.ok cd → buildIndex cd = Except.ok idx →
      preprocessStage = Except.ok (q, osize) → run idx q = Except.error m →
      analyze discover buildIndex preprocessStage run imageId =
        { success := false, error := some m, imageId := imageId }) ∧
    (∀ cd idx q osize raw scores, discover = Except.ok cd → buildIndex cd = Except.ok idx →
      preprocessStage = Except.ok (q, osize) → run idx q = Except.ok (raw, scores) →
      analyze discover buildIndex preprocessStage run imageId =
        { success := true
          flag := (parse raw).flag
          explanation := (parse raw).explanation
          class_scores := some scores
          raw_response := some raw
          original_size := some osize
          imageId := imageId }) := by
  refine ⟨?_, ?_, ?_, ?_, ?_⟩
  · intro m h1
    unfold analyze
    rw [h1, exbind_error]
  · intro cd m h1 h2
    unfold analyze
    rw [h1, exbind_ok, h2, exbind_error]
  · intro cd idx m h1 h2 h3
    unfold analyze
    rw [h1, exbind_ok, h2, exbind_ok, h3, exbind_error]
  · intro cd idx q osize m h1 h2 h3 h4
    simp only [analyze, h1, h2, h3, h4, exbind_ok, exbind_error]
  · intro cd idx q osize raw scores h1 h2 h3 h4
    simp only [analyze, h1, h2, h3, h4, exbind_ok, exbind_error]
    rfl

/-- Witness for C1: a concrete failing discovery stage is caught and turned
into the failure record, and a concrete all-success pipeline yields the
success record. -/
theorem c1_witness :
    @analyze Unit Unit Unit
        (Except.error "No support class folders found") (fun _ => Except.ok ())
        (Except.ok ((), (8, 6))) (fun _ _ => Except.ok ("true".toList, [("a", 1)]))
        (some "img-1") =
      { success := false, error := some "No support class folders found",
        imageId := some "img-1" } ∧
    @analyze Unit Unit Unit
        (Except.ok ()) (fun _ => Except.ok ())
        (Except.ok ((), (8, 6))) (fun _ _ => Except.ok ("true".toList, [("a", 1)]))
        (some "img-1") =
      { success := true
        flag := some (FlagVal.bool true)
        explanation := none
        class_scores := some [("a", 1)]
        raw_response := some "true".toList
        original_size := some (8, 6)
        imageId := some "img-1" } :=
  ⟨(c1_analyze_error_boundary _ _ _ _ _).1 _ rfl, by
    have h := (@c1_analyze_error_boundary Unit Unit Unit
      (Except.ok ()) (fun _ => Except.ok ()) (Except.ok ((), (8, 6)))
      (fun _ _ => Except.ok ("true".toList, [("a", 1)])) (some "img-1")).2.2.2.2
        () () () (8, 6) "true".toList [("a", 1)] rfl rfl rfl rfl
    rw [h]
    decide⟩

/-- C4: `parse` extracts flag and explanation independently from the same raw
text.  The flag follows the priority: (1) the last regex match of an
identifier ending in `Flag` followed by `:`/`=` and a value (the match runs
to the end of the line), trimmed; (2) else boolean for a trimmed text equal
to true/false case-insensitively; (3) else the trimmed text when it is a
single whitespace-delimited token; (4) else nothing.  The explanation is the
trimmed text after the last case-insensitive `Explanation:`/`=` delimiter,
nothing when the delimiter is absent or the remainder trims to empty.  The
spec's literal scenarios are included. -/
theorem c4_parse_priority (t : List Char) :
    (parse t).flag = extract_flag t ∧
    (parse t).explanation = extract_explanation t ∧
    (∀ m, (flagMatches t).getLast? = some m →
      extract_flag t = some (FlagVal.str (pyStrip m))) ∧
    ((flagMatches t).getLast? = none →
      extract_flag t =
        (if lowerList (pyStrip t) = trueLit then some (FlagVal.bool true)
         else if lowerList (pyStrip t) = falseLit then some (FlagVal.bool false)
         else if (pySplitWs (pyStrip t)).length = 1 then some (FlagVal.str (pyStrip t))
         else none)) ∧
    (∀ r, explLastTail t = some r →
      extract_explanation t = (if pyStrip r = [] then none else some (pyStrip r))) ∧
    (explLastTail t = none → extract_explanation t = none) ∧
    extract_flag "VisibleDirtyFlag: True".toList =
      some (FlagVal.str "VisibleDirtyFlag: True".toList) ∧
    extract_flag "true".toList = some (FlagVal.bool true) ∧
    extract_flag "dirty".toList = some (FlagVal.str "dirty".toList) ∧
    extract_flag "I am not sure about this image".toList = none ∧
    extract_explanation
        "VisibleDirtyFlag: False\nExplanation: The surface looks clean.".toList =
      some "The surface looks clean.".toList := by
  refine ⟨rfl, rfl, ?_, ?_, ?_, ?_, by decide, by decide, by decide, by decide, by decide⟩
  · intro m hm
    unfold extract_flag
    rw [hm]
  · intro hm
    unfold extract_flag
    rw [hm]
  · intro r hr
    unfold extract_explanation
    rw [hr]
  · intro hr
    unfold extract_explanation
    rw [hr]

/-- Witness for C4: the priority-1 branch applied at a concrete line. -/
theorem c4_witness :
    extract_flag "VisibleDirtyFlag: True".toList =
      some (FlagVal.str (pyStrip "VisibleDirtyFlag: True".toList)) :=
  (c4_parse_priority "VisibleDirtyFlag: True".toList).2.2.1
    "VisibleDirtyFlag: True".toList (by decide)

/-- C8 (code bug): `decode_base64_to_pil` documents that its input "may or may
not include a data URI prefix", and the spec promises the same, but the code
passes the raw string straight to `base64.b64decode`, which only discards the
non-alphabet characters of such a prefix and decodes the rest as payload: with
the standard prefix `data:image/png;base64,` the 19 surviving alphabet
characters break the 4-character grouping and preprocessing raises
`Incorrect padding`, while the same payload without the prefix decodes fine
(original size captured before the resize, resize applied when a target is
configured). -/
theorem c8_data_uri_breaks_decode :
    (∀ (sizeOf : Unit → Nat × Nat) (resize : Unit → Nat → Unit) (target : Option Nat),
      preprocess (fun bs => if bs = [65, 66, 67] then some () else none) sizeOf resize
        target "data:image/png;base64,QUJD".toList = Except.error "Incorrect padding") ∧
    preprocess (fun bs => if bs = [65, 66, 67] then some () else none) (fun _ => (8, 6))
      (fun i _ => i) (some 224) "QUJD".toList = Except.ok ((), (8, 6)) := by
  constructor
  · intro sizeOf resize target
    unfold preprocess decode_base64_to_pil
    have h : pyB64Decode "data:image/png;base64,QUJD".toList =
        Except.error "Incorrect padding" := by decide
    rw [h]
  · decide

theorem flatMap_over_map {α β γ : Type} (h : α → β) (g : β → List γ) :
    ∀ l : List α, (l.map h).flatMap g = l.flatMap (fun a => g (h a)) := by
  intro l
  induction l with
  | nil => rfl
  | cons a l ih => simp [ih]

theorem mem_firstOccur : ∀ (l : List String) (x : String), x ∈ firstOccur l → x ∈ l
  | [], x, h => by simp [firstOccur] at h
  | a :: rest, x, h => by
    rw [firstOccur] at h
    rcases List.mem_cons.mp h with h | h
    · exact h ▸ List.mem_cons_self a rest
    · exact List.mem_cons_of_mem a
        (List.mem_of_mem_filter (mem_firstOccur (rest.filter (fun x => decide (x ≠ a))) x h))
termination_by l => l.length
decreasing_by
  simp only [List.length_cons]
  exact Nat.lt_succ_of_le (List.length_filter_le _ _)

theorem nodup_firstOccur : ∀ (l : List String), (firstOccur l).Nodup
  | [] => by simp [firstOccur]
  | a :: rest => by
    rw [firstOccur]
    refine List.nodup_cons.mpr ⟨?_, nodup_firstOccur (rest.filter (fun x => decide (x ≠ a)))⟩
    intro hmem
    have hx := mem_firstOccur _ _ hmem
    have hcond := List.of_mem_filter hx
    simp at hcond
termination_by l => l.length
decreasing_by
  simp only [List.length_cons]
  exact Nat.lt_succ_of_le (List.length_filter_le _ _)

theorem keysOf_cons (g : String × List Evidence) (rest : List (String × List Evidence)) :
    keysOf (g :: rest) = g.1 :: keysOf rest := rfl

theorem groupInsert_cons (g : String × List Evidence) (rest : List (String × List Evidence))
    (e : Evidence) :
    groupInsert (g :: rest) e =
      if g.1 = e.ref.label then (g.1, g.2 ++ [e]) :: rest else g :: groupInsert rest e := rfl

theorem glookup_cons (g : String × List Evidence) (rest : List (String × List Evidence))
    (l : String) :
    glookup (g :: rest) l = if g.1 = l then g.2 else glookup rest l := rfl

theorem keysOf_groupInsert (m : List (String × List Evidence)) (e : Evidence) :
    keysOf (groupInsert m e) =
      if e.ref.label ∈ keysOf m then keysOf m else keysOf m ++ [e.ref.label] := by
  induction m with
  | nil => simp [groupInsert, keysOf]
  | cons g rest ih =>
    rw [groupInsert_cons]
    by_cases hg : g.1 = e.ref.label
    · rw [if_pos hg, keysOf_cons, keysOf_cons,
        if_pos (show e.ref.label ∈ g.1 :: keysOf rest from hg ▸ List.mem_cons_self g.1 (keysOf rest))]
    · rw [if_neg hg, keysOf_cons, keysOf_cons, ih]
      by_cases hm : e.ref.label ∈ keysOf rest
      · rw [if_pos hm, if_pos (List.mem_cons_of_mem g.1 hm)]
      · have hnotin : e.ref.label ∉ g.1 :: keysOf rest := by
          intro hc
          rcases List.mem_cons.mp hc with hc | hc
          · exact hg hc.symm
          · exact hm hc
        rw [if_neg hm, if_neg hnotin, List.cons_append]

theorem glookup_groupInsert (m : List (String × List Evidence)) (e : Evidence) (l : String) :
    glookup (groupInsert m e) l =
      glookup m l ++ (if e.ref.label = l then [e] else []) := by
  induction m with
  | nil =>
    by_cases h : e.ref.label = l <;> simp [groupInsert, glookup, h]
  | cons g rest ih =>
    rw [groupInsert_cons]
    by_cases hg : g.1 = e.ref.label
    · rw [if_pos hg]
      by_cases hl : g.1 = l
      · have hel : e.ref.label = l := hg.symm.trans hl
        rw [glookup_cons, if_pos hl, glookup_cons, if_pos hl, if_pos hel]
      · have hel : ¬ e.ref.label = l := fun hc => hl (hg.trans hc)
        rw [glookup_cons, if_neg hl, glookup_cons, if_neg hl, if_neg hel, List.append_nil]
    · rw [if_neg hg]
      by_cases hl : g.1 = l
      · have hel : ¬ e.ref.label = l := fun hc => hg (hl.trans hc.symm)
        rw [glookup_cons, if_pos hl, glookup_cons, if_pos hl, if_neg hel, List.append_nil]
      · rw [glookup_cons, if_neg hl, glookup_cons, if_neg hl, ih]

theorem glookup_foldl (ev : List Evidence) :
    ∀ (m : List (String × List Evidence)) (l : String),
      glookup (ev.foldl groupInsert m) l =
        glookup m l ++ ev.filter (fun e => decide (e.ref.label = l)) := by
  induction ev with
  | nil => intro m l; simp
  | cons e ev ih =>
    intro m l
    simp only [List.foldl_cons, ih, glookup_groupInsert, List.filter_cons]
    by_cases h : e.ref.label = l <;> simp [h, List.append_assoc]

theorem keysOf_foldl (ev : List Evidence) :
    ∀ (m : List (String × List Evidence)),
      keysOf (ev.foldl groupInsert m) =
        keysOf m ++ firstOccur ((ev.map (fun e => e.ref.label)).filter
          (fun l => decide (l ∉ keysOf m))) := by
  induction ev with
  | nil => intro m; simp [firstOccur]
  | cons e ev ih =>
    intro m
    simp only [List.foldl_cons, ih, keysOf_groupInsert, List.map_cons, List.filter_cons]
    by_cases hm : e.ref.label ∈ keysOf m
    · simp [hm]
    · have hd : decide (e.ref.label ∉ keysOf m) = true := by simp [hm]
      rw [if_neg hm, hd, if_pos rfl, firstOccur, List.append_assoc, List.singleton_append]
      congr 2
      refine Eq.symm ?_
      rw [List.filter_filter]
      congr 1
      apply List.filter_congr
      intro x hx
      by_cases h1 : x ∈ keysOf m <;> by_cases h2 : x = e.ref.label <;> simp [h1, h2]

theorem eq_keys_map_glookup :
    ∀ (m : List (String × List Evidence)), (keysOf m).Nodup →
      m = (keysOf m).map (fun l => (l, glookup m l)) := by
  intro m
  induction m with
  | nil => intro _; rfl
  | cons g rest ih =>
    intro h
    have h1 : g.1 ∉ keysOf rest := (List.nodup_cons.mp (by simpa [keysOf] using h)).1
    have h2 := ih (List.nodup_cons.mp (by simpa [keysOf] using h)).2
    show g :: rest = (keysOf (g :: rest)).map (fun l => (l, glookup (g :: rest) l))
    have hk : keysOf (g :: rest) = g.1 :: keysOf rest := rfl
    rw [hk, List.map_cons]
    have hg : (g.1, glookup (g :: rest) g.1) = g := by
      simp [glookup]
    rw [hg]
    congr 1
    conv_lhs => rw [h2]
    apply List.map_congr_left
    intro l hl
    have : ¬ g.1 = l := fun hc => h1 (hc ▸ hl)
    simp [glookup, this]

theorem length_flatMap_const {α β : Type} (f : α → List β) (c : Nat) :
    ∀ l : List α, (∀ a ∈ l, (f a).length = c) → (l.flatMap f).length = l.length * c := by
  intro l
  induction l with
  | nil => intro _; simp
  | cons a l ih =>
    intro h
    rw [List.flatMap_cons, List.length_append, ih (fun x hx => h x (List.mem_cons_of_mem a hx)),
      h a (List.mem_cons_self a l), List.length_cons, Nat.succ_mul, Nat.add_comm (l.length * c) c]

theorem patchCoords_length (res patch : Nat) :
    (patchCoords res patch).length = (res / patch) * (res / patch) := by
  unfold patchCoords
  rw [length_flatMap_const _ (res / patch) _ (fun a _ => by simp), List.length_range]

theorem isqrtAux_le (n : Nat) :
    ∀ (fuel acc : Nat), acc * acc ≤ n → isqrtAux n fuel acc * isqrtAux n fuel acc ≤ n
  | 0, acc, h => h
  | fuel + 1, acc, h => by
    rw [isqrtAux]
    by_cases hc : (acc + 1) * (acc + 1) ≤ n
    · rw [if_pos hc]
      exact isqrtAux_le n fuel (acc + 1) hc
    · rw [if_neg hc]
      exact h

theorem isqrtAux_max (n : Nat) :
    ∀ (fuel acc : Nat), n < (acc + fuel + 1) * (acc + fuel + 1) →
      ¬ ((isqrtAux n fuel acc + 1) * (isqrtAux n fuel acc + 1) ≤ n)
  | 0, acc, h => by
    rw [isqrtAux]
    intro hc
    exact absurd hc (not_le.mpr (by simpa using h))
  | fuel + 1, acc, h => by
    rw [isqrtAux]
    by_cases hc : (acc + 1) * (acc + 1) ≤ n
    · rw [if_pos hc]
      apply isqrtAux_max n fuel (acc + 1)
      have he : acc + 1 + fuel + 1 = acc + (fuel + 1) + 1 := by omega
      rw [he]
      exact h
    · rw [if_neg hc]
      exact hc

theorem intSqrt_mul_self (r : Nat) : intSqrt (r * r) = r := by
  have h1 := isqrtAux_le (r * r) (r * r) 0 (by simp)
  have h2 := isqrtAux_max (r * r) (r * r) 0 (by nlinarith)
  rw [show intSqrt (r * r) = isqrtAux (r * r) (r * r) 0 from rfl]
  have hsr : isqrtAux (r * r) (r * r) 0 ≤ r := by
    by_contra hlt
    push_neg at hlt
    have hm : (r + 1) * (r + 1) ≤ isqrtAux (r * r) (r * r) 0 * isqrtAux (r * r) (r * r) 0 :=
      Nat.mul_le_mul (Nat.succ_le_of_lt hlt) (Nat.succ_le_of_lt hlt)
    have := le_trans hm h1
    nlinarith
  have hrs : r ≤ isqrtAux (r * r) (r * r) 0 := by
    by_contra hlt
    push_neg at hlt
    exact h2 (Nat.mul_le_mul (Nat.succ_le_of_lt hlt) (Nat.succ_le_of_lt hlt))
  omega

theorem getPatchEmbeddings_ok {Img : Type} (clip : Img → List (List Rat)) (img : Img)
    (s : Nat) (h : (clip img).length = s * s) :
    getPatchEmbeddings clip img = Except.ok (clip img) := by
  unfold getPatchEmbeddings
  show (if intSqrt (clip img).length * intSqrt (clip img).length = (clip img).length
    then Except.ok (clip img) else Except.error "cannot reshape patch token grid") = _
  rw [h, intSqrt_mul_self, if_pos rfl]

theorem processFile_ok {Img : Type} (fs : FS Img) (clip : Img → List (List Rat))
    (res patch : Nat) (folder label : String)
    (htok : ∀ img : Img, (clip img).length = (res / patch) * (res / patch))
    (st : SIState) (fname : String) :
    ∃ st', processFile fs clip res patch folder label st fname = Except.ok st' ∧
      rowCount st' = rowCount st +
        (if isImageFile (folder ++ "/" ++ fname) &&
            (fs.openImage (folder ++ "/" ++ fname)).isSome
         then (res / patch) * (res / patch) else 0) ∧
      st'.meta.length = st.meta.length +
        (if isImageFile (folder ++ "/" ++ fname) &&
            (fs.openImage (folder ++ "/" ++ fname)).isSome
         then (res / patch) * (res / patch) else 0) := by
  by_cases h1 : isImageFile (folder ++ "/" ++ fname) = true
  · cases ho : fs.openImage (folder ++ "/" ++ fname) with
    | none =>
      refine ⟨st, ?_, ?_, ?_⟩
      · unfold processFile
        rw [if_neg (by simp [h1])]
        simp only [ho]
      · simp [h1, ho]
      · simp [h1, ho]
    | some img =>
      refine ⟨{ vectors := some (st.vectors.getD [] ++ clip (fs.resize img res))
                meta := st.meta ++ (patchCoords res patch).enum.map
                  (fun ib => { label := label, image_path := folder ++ "/" ++ fname,
                               patch_idx := ib.1, box := ib.2 }) }, ?_, ?_, ?_⟩
      · unfold processFile
        rw [if_neg (by simp [h1])]
        simp only [ho, getPatchEmbeddings_ok clip (fs.resize img res) (res / patch) (htok _)]
      · simp [rowCount, h1, ho, htok]
      · simp [h1, ho, patchCoords_length]
  · refine ⟨st, ?_, ?_, ?_⟩
    · unfold processFile
      rw [if_pos (by simp [h1])]
    · simp [h1]
    · simp [h1]

theorem foldFiles_ok {Img : Type} (fs : FS Img) (clip : Img → List (List Rat))
    (res patch : Nat) (folder label : String)
    (htok : ∀ img : Img, (clip img).length = (res / patch) * (res / patch)) :
    ∀ (files : List String) (st : SIState),
      ∃ st', files.foldlM (processFile fs clip res patch folder label) st = Except.ok st' ∧
        rowCount st' = rowCount st + (res / patch) * (res / patch) *
          (files.filter (fun f => isImageFile (folder ++ "/" ++ f) &&
            (fs.openImage (folder ++ "/" ++ f)).isSome)).length ∧
        st'.meta.length = st.meta.length + (res / patch) * (res / patch) *
          (files.filter (fun f => isImageFile (folder ++ "/" ++ f) &&
            (fs.openImage (folder ++ "/" ++ f)).isSome)).length := by
  intro files
  induction files with
  | nil =>
    intro st
    exact ⟨st, rfl, by simp, by simp⟩
  | cons f files ih =>
    intro st
    obtain ⟨st1, hst1, hrow1, hmeta1⟩ := processFile_ok fs clip res patch folder label htok st f
    obtain ⟨st2, hst2, hrow2, hmeta2⟩ := ih st1
    refine ⟨st2, ?_, ?_, ?_⟩
    · rw [List.foldlM_cons, hst1]
      exact hst2
    · rw [hrow2, hrow1, List.filter_cons]
      by_cases hp : (isImageFile (folder ++ "/" ++ f) &&
          (fs.openImage (folder ++ "/" ++ f)).isSome) = true
      · simp only [hp, if_pos rfl, if_true, List.length_cons]
        ring
      · simp only [hp, Bool.false_eq_true, if_false]
        simp at hp
        simp [hp]
    · rw [hmeta2, hmeta1, List.filter_cons]
      by_cases hp : (isImageFile (folder ++ "/" ++ f) &&
          (fs.openImage (folder ++ "/" ++ f)).isSome) = true
      · simp only [hp, if_pos rfl, if_true, List.length_cons]
        ring
      · simp only [hp, Bool.false_eq_true, if_false]
        simp at hp
        simp [hp]

theorem foldDirs_ok {Img : Type} (fs : FS Img) (clip : Img → List (List Rat))
    (res patch : Nat)
    (htok : ∀ img : Img, (clip img).length = (res / patch) * (res / patch)) :
    ∀ (dirs : List (String × String)) (st : SIState),
      ∃ st', dirs.foldlM (buildStep fs clip res patch) st = Except.ok st' ∧
        rowCount st' = rowCount st + (res / patch) * (res / patch) * processedCount fs dirs ∧
        st'.meta.length = st.meta.length + (res / patch) * (res / patch) * processedCount fs dirs := by
  intro dirs
  induction dirs with
  | nil =>
    intro st
    exact ⟨st, rfl, by simp [processedCount], by simp [processedCount]⟩
  | cons ld dirs ih =>
    intro st
    by_cases hd : fs.isdir ld.2 = true
    · obtain ⟨st1, hst1, hrow1, hmeta1⟩ :=
        foldFiles_ok fs clip res patch ld.2 ld.1 htok (fs.listdir ld.2) st
      obtain ⟨st2, hst2, hrow2, hmeta2⟩ := ih st1
      refine ⟨st2, ?_, ?_, ?_⟩
      · rw [List.foldlM_cons]
        show (buildStep fs clip res patch st ld >>= fun st1 =>
          dirs.foldlM (buildStep fs clip res patch) st1) = _
        unfold buildStep
        rw [if_pos hd]
        unfold processFolder
        rw [hst1]
        exact hst2
      · rw [hrow2, hrow1]
        show _ = rowCount st + (res / patch) * (res / patch) *
          ((if fs.isdir ld.2 then folderCount fs ld.2 else 0) + processedCount fs dirs)
        rw [if_pos hd]
        unfold folderCount
        ring
      · rw [hmeta2, hmeta1]
        show _ = st.meta.length + (res / patch) * (res / patch) *
          ((if fs.isdir ld.2 then folderCount fs ld.2 else 0) + processedCount fs dirs)
        rw [if_pos hd]
        unfold folderCount
        ring
    · obtain ⟨st2, hst2, hrow2, hmeta2⟩ := ih st
      refine ⟨st2, ?_, ?_, ?_⟩
      · rw [List.foldlM_cons]
        show (buildStep fs clip res patch st ld >>= fun st1 =>
          dirs.foldlM (buildStep fs clip res patch) st1) = _
        unfold buildStep
        rw [if_neg hd, exbind_ok]
        exact hst2
      · rw [hrow2]
        show _ = rowCount st + (res / patch) * (res / patch) *
          ((if fs.isdir ld.2 then folderCount fs ld.2 else 0) + processedCount fs dirs)
        rw [if_neg hd]
        ring
      · rw [hmeta2]
        show _ = st.meta.length + (res / patch) * (res / patch) *
          ((if fs.isdir ld.2 then folderCount fs ld.2 else 0) + processedCount fs dirs)
        rw [if_neg hd]
        ring

/-- C3: after a successful `build()` on a fresh index, the EmbeddingMatrix
row count equals the number of PatchRecord entries, and both equal
(number of successfully processed support images) × (res / patch)², provided
the encoder's token grid is consistent with the configured patch grid (each
image yields (res / patch)² tokens, the consistency §4.2 of the spec
requires). -/
theorem build_unfold_ok {Img : Type} (fs : FS Img) (clip : Img → List (List Rat))
    (res patch : Nat) (dirs : List (String × String)) (st st1 : SIState)
    (h0 : st.vectors.isSome = false)
    (hf : dirs.foldlM (buildStep fs clip res patch) st = Except.ok st1) :
    build fs clip res patch dirs st =
      if st1.vectors.isSome = true then Except.ok st1 else Except.error noVectorsMsg := by
  unfold build
  rw [h0]
  simp only [Bool.false_eq_true, if_false]
  rw [hf]

theorem c3_index_size {Img : Type} (fs : FS Img) (clip : Img → List (List Rat))
    (res patch : Nat) (dirs : List (String × String)) (st' : SIState)
    (htok : ∀ img : Img, (clip img).length = (res / patch) * (res / patch))
    (hb : build fs clip res patch dirs { vectors := none, meta := [] } = Except.ok st') :
    rowCount st' = st'.meta.length ∧
    rowCount st' = processedCount fs dirs * (res / patch) ^ 2 := by
  obtain ⟨st1, hst1, hrow1, hmeta1⟩ :=
    foldDirs_ok fs clip res patch htok dirs { vectors := none, meta := [] }
  rw [build_unfold_ok fs clip res patch dirs { vectors := none, meta := [] } st1 rfl hst1] at hb
  by_cases h1 : st1.vectors.isSome = true
  · rw [if_pos h1] at hb
    cases hb
    constructor
    · rw [hrow1, hmeta1]
      rfl
    · rw [hrow1]
      show 0 + _ = _
      rw [Nat.zero_add, pow_two]
      ring
  · rw [if_neg h1] at hb
    cases hb

/-- Witness for C3: the concrete one-class build yields 4 rows, 4 metadata
entries, 1 processed image and a 2 × 2 grid. -/
theorem c3_witness :
    rowCount builtCat = builtCat.meta.length ∧
    rowCount builtCat = processedCount unitFS [("cat", "d")] * (2 / 1) ^ 2 :=
  c3_index_size unitFS clipFour 2 1 [("cat", "d")] builtCat (fun _ => rfl) (by decide)

theorem foldlM_invariant {α : Type} (f : SIState → α → Except String SIState)
    (P : SIState → Prop)
    (hf : ∀ st a st', P st → f st a = Except.ok st' → P st') :
    ∀ (l : List α) (st st' : SIState), P st → l.foldlM f st = Except.ok st' → P st' := by
  intro l
  induction l with
  | nil =>
    intro st st' h hfold
    rw [List.foldlM_nil] at hfold
    cases hfold
    exact h
  | cons a l ih =>
    intro st st' h hfold
    rw [List.foldlM_cons] at hfold
    cases hstep : f st a with
    | error e =>
      rw [hstep] at hfold
      cases hfold
    | ok st1 =>
      rw [hstep] at hfold
      exact ih st1 st' (hf st a st1 h hstep) hfold

/-- Invariant: either no image was processed yet, or the stacked vectors are
nonempty. -/
def vecInv (st : SIState) : Prop :=
  st.vectors = none ∨ ∃ v, st.vectors = some v ∧ v ≠ []

theorem getPatchEmbeddings_ok_inv {Img : Type} (clip : Img → List (List Rat)) (img : Img)
    (vecs : List (List Rat)) (h : getPatchEmbeddings clip img = Except.ok vecs) :
    vecs = clip img := by
  unfold getPatchEmbeddings at h
  by_cases hc : intSqrt (clip img).length * intSqrt (clip img).length = (clip img).length
  · rw [if_pos hc] at h
    cases h
    rfl
  · rw [if_neg hc] at h
    cases h

theorem processFile_vecInv {Img : Type} (fs : FS Img) (clip : Img → List (List Rat))
    (res patch : Nat) (folder label : String) (hne : ∀ img : Img, clip img ≠ [])
    (st : SIState) (fname : String) (st' : SIState) (hinv : vecInv st)
    (h : processFile fs clip res patch folder label st fname = Except.ok st') :
    vecInv st' := by
  unfold processFile at h
  by_cases h1 : isImageFile (folder ++ "/" ++ fname) = true
  · rw [if_neg (by simp [h1])] at h
    cases ho : fs.openImage (folder ++ "/" ++ fname) with
    | none =>
      rw [ho] at h
      cases h
      exact hinv
    | some img =>
      rw [ho] at h
      simp only at h
      cases hg : getPatchEmbeddings clip (fs.resize img res) with
      | error e =>
        rw [hg] at h
        cases h
      | ok vecs =>
        rw [hg] at h
        cases h
        refine Or.inr ⟨st.vectors.getD [] ++ vecs, rfl, ?_⟩
        rw [getPatchEmbeddings_ok_inv clip (fs.resize img res) vecs hg]
        intro hc
        exact hne (fs.resize img res) (List.append_eq_nil.mp hc).2
  · rw [if_pos (by simp [h1])] at h
    cases h
    exact hinv

theorem buildStep_vecInv {Img : Type} (fs : FS Img) (clip : Img → List (List Rat))
    (res patch : Nat) (hne : ∀ img : Img, clip img ≠ [])
    (st : SIState) (ld : String × String) (st' : SIState) (hinv : vecInv st)
    (h : buildStep fs clip res patch st ld = Except.ok st') : vecInv st' := by
  unfold buildStep at h
  by_cases hd : fs.isdir ld.2 = true
  · rw [if_pos hd] at h
    unfold processFolder at h
    exact foldlM_invariant _ vecInv
      (fun st a st' => processFile_vecInv fs clip res patch ld.2 ld.1 hne st a st')
      (fs.listdir ld.2) st st' hinv h
  · rw [if_neg hd] at h
    cases h
    exact hinv

/-- C6: build is fail-soft per class and per file, and the empty-index error
is raised exactly when nothing was appended.  (a) a class whose directory is
missing is skipped with the state unchanged; (b) a file whose decode fails is
skipped with the state unchanged; (c) on a fresh index, `build` fails with
the empty-index error precisely when the processing fold appended no vectors
(assuming the encoder emits at least one token per image, as CLIP does). -/
theorem c6_build_fail_soft {Img : Type} (fs : FS Img) (clip : Img → List (List Rat))
    (res patch : Nat) (hne : ∀ img : Img, clip img ≠ []) :
    (∀ (st : SIState) (label folder : String), fs.isdir folder = false →
      buildStep fs clip res patch st (label, folder) = Except.ok st) ∧
    (∀ (st : SIState) (folder label fname : String),
      fs.openImage (folder ++ "/" ++ fname) = none →
      processFile fs clip res patch folder label st fname = Except.ok st) ∧
    (∀ (dirs : List (String × String)) (st1 : SIState),
      dirs.foldlM (buildStep fs clip res patch) { vectors := none, meta := [] } =
        Except.ok st1 →
      (build fs clip res patch dirs { vectors := none, meta := [] } =
          Except.error noVectorsMsg ↔ rowCount st1 = 0)) := by
  refine ⟨?_, ?_, ?_⟩
  · intro st label folder h
    unfold buildStep
    rw [if_neg (by simp [h])]
  · intro st folder label fname h
    unfold processFile
    by_cases h1 : isImageFile (folder ++ "/" ++ fname) = true
    · rw [if_neg (by simp [h1]), h]
    · rw [if_pos (by simp [h1])]
  · intro dirs st1 hfold
    have hinv : vecInv st1 :=
      foldlM_invariant _ vecInv
        (fun st a st' => buildStep_vecInv fs clip res patch hne st a st')
        dirs { vectors := none, meta := [] } st1 (Or.inl rfl) hfold
    rw [build_unfold_ok fs clip res patch dirs { vectors := none, meta := [] } st1 rfl hfold]
    constructor
    · intro hb
      by_cases h1 : st1.vectors.isSome = true
      · rw [if_pos h1] at hb
        cases hb
      · rcases hinv with hv | ⟨v, hv, hvne⟩
        · simp [rowCount, hv]
        · rw [hv] at h1
          simp at h1
    · intro hz
      rcases hinv with hv | ⟨v, hv, hvne⟩
      · rw [if_neg (by simp [hv])]
      · simp only [rowCount, hv, Option.getD_some] at hz
        exact absurd (List.length_eq_zero.mp hz) hvne

/-- Witness for C6: with every class directory missing, the class step is a
no-op and the fresh build fails with exactly the empty-index error. -/
theorem c6_witness :
    buildStep noDirFS clipOne 2 1 { vectors := none, meta := [] } ("cat", "d") =
      Except.ok { vectors := none, meta := [] } ∧
    (build noDirFS clipOne 2 1 [("cat", "d")] { vectors := none, meta := [] } =
        Except.error noVectorsMsg ↔ rowCount { vectors := none, meta := [] } = 0) :=
  ⟨(c6_build_fail_soft noDirFS clipOne 2 1 (fun _ => List.cons_ne_nil _ _)).1
      { vectors := none, meta := [] } "cat" "d" rfl,
    (c6_build_fail_soft noDirFS clipOne 2 1 (fun _ => List.cons_ne_nil _ _)).2.2
      [("cat", "d")] { vectors := none, meta := [] } (by decide)⟩

/-- C9: `build_rag_images` returns the query image first, then the cropped
evidence patches grouped by label — labels in order of first appearance in
the evidence list — with each label's group truncated to its first
`max_per_class` items in arrival order (no re-sorting within a label). -/
theorem c9_build_rag_images {Img : Type} (crop : String → Box → Img) (query_img : Img)
    (evidence : List Evidence) (max_per_class : Nat) :
    build_rag_images crop query_img evidence max_per_class =
      query_img :: (firstOccur (evidence.map (fun e => e.ref.label))).flatMap
        (fun l => ((evidence.filter (fun e => decide (e.ref.label = l))).take max_per_class).map
          (fun e => crop e.ref.image_path e.ref.box)) := by
  unfold build_rag_images
  have hkeys : keysOf (evidence.foldl groupInsert []) =
      firstOccur (evidence.map (fun e => e.ref.label)) := by
    have h := keysOf_foldl evidence []
    simpa [keysOf] using h
  have hnodup : (keysOf (evidence.foldl groupInsert [])).Nodup := by
    rw [hkeys]; exact nodup_firstOccur _
  have hlook : ∀ l, glookup (evidence.foldl groupInsert []) l =
      evidence.filter (fun e => decide (e.ref.label = l)) := by
    intro l
    simpa [glookup] using glookup_foldl evidence [] l
  conv_lhs => rw [eq_keys_map_glookup _ hnodup]
  rw [hkeys, List.map_map]
  simp only [flatMap_over_map, Function.comp, hlook]

theorem argsortAsc_perm (xs : List Rat) :
    List.Perm (argsortAsc xs) (List.range xs.length) :=
  List.perm_insertionSort _ _

theorem argsortAsc_length (xs : List Rat) : (argsortAsc xs).length = xs.length := by
  rw [(argsortAsc_perm xs).length_eq, List.length_range]

theorem mem_argsortAsc_lt (xs : List Rat) (i : Nat) (h : i ∈ argsortAsc xs) : i < xs.length :=
  List.mem_range.mp ((argsortAsc_perm xs).mem_iff.mp h)

theorem argsortAsc_sorted (xs : List Rat) : (argsortAsc xs).Pairwise (argRel xs) :=
  List.sorted_insertionSort _ _

theorem pySliceLast_length {α : Type} (k : Nat) (l : List α) :
    (pySliceLast k l).length = if k = 0 then l.length else min k l.length := by
  unfold pySliceLast
  by_cases h : k = 0
  · rw [if_pos h, if_pos h]
  · rw [if_neg h, if_neg h, List.length_drop]
    omega

theorem pySliceLast_mem {α : Type} (k : Nat) (l : List α) (a : α)
    (h : a ∈ pySliceLast k l) : a ∈ l := by
  unfold pySliceLast at h
  by_cases hk : k = 0
  · rw [if_pos hk] at h
    exact h
  · rw [if_neg hk] at h
    exact List.mem_of_mem_drop h

theorem pySliceLast_pairwise {α : Type} (r : α → α → Prop) (k : Nat) (l : List α)
    (h : l.Pairwise r) : (pySliceLast k l).Pairwise r := by
  unfold pySliceLast
  by_cases hk : k = 0
  · rw [if_pos hk]
    exact h
  · rw [if_neg hk]
    exact h.sublist (List.drop_sublist _ _)

theorem emissionsFor_length (S : List (List Rat)) (meta : List PatchRecord) (k : Nat)
    (qp : Nat × List Rat) :
    (emissionsFor S meta k qp).length = if k = 0 then S.length else min k S.length := by
  unfold emissionsFor
  rw [List.length_map, List.length_reverse, pySliceLast_length, argsortAsc_length]
  unfold simsOf
  rw [List.length_map]

theorem emissionsFor_mem (S : List (List Rat)) (meta : List PatchRecord) (k : Nat)
    (qp : Nat × List Rat) (e : Evidence) (h : e ∈ emissionsFor S meta k qp) :
    ∃ i, i < S.length ∧
      e = { query_patch_idx := qp.1
            sim := (simsOf S qp.2).getD i 0
            ref := meta.getD i dummyRecord } := by
  unfold emissionsFor at h
  obtain ⟨i, hi, he⟩ := List.mem_map.mp h
  have hmem : i ∈ argsortAsc (simsOf S qp.2) :=
    pySliceLast_mem _ _ _ (List.mem_reverse.mp hi)
  have hlt := mem_argsortAsc_lt _ i hmem
  rw [show (simsOf S qp.2).length = S.length from by unfold simsOf; rw [List.length_map]] at hlt
  exact ⟨i, hlt, he.symm⟩

theorem emissionsFor_sorted (S : List (List Rat)) (meta : List PatchRecord) (k : Nat)
    (qp : Nat × List Rat) : (emissionsFor S meta k qp).Pairwise evDesc := by
  unfold emissionsFor
  rw [List.pairwise_map, List.pairwise_reverse]
  apply pySliceLast_pairwise
  exact argsortAsc_sorted _

theorem mem_enumFrom_getD {α : Type} (d : α) :
    ∀ (l : List α) (n : Nat) (p : Nat × α), p ∈ l.enumFrom n →
      n ≤ p.1 ∧ p.1 - n < l.length ∧ p.2 = l.getD (p.1 - n) d := by
  intro l
  induction l with
  | nil =>
    intro n p h
    simp [List.enumFrom] at h
  | cons a l ih =>
    intro n p h
    rw [List.enumFrom] at h
    rcases List.mem_cons.mp h with h | h
    · subst h
      simp
    · obtain ⟨h1, h2, h3⟩ := ih (n + 1) p h
      refine ⟨by omega, by simp only [List.length_cons]; omega, ?_⟩
      have he : p.1 - n = (p.1 - (n + 1)) + 1 := by omega
      rw [he, List.getD_cons_succ]
      exact h3

theorem mem_enum_getD {α : Type} (d : α) (l : List α) (p : Nat × α) (h : p ∈ l.enum) :
    p.1 < l.length ∧ p.2 = l.getD p.1 d := by
  obtain ⟨h1, h2, h3⟩ := mem_enumFrom_getD d l 0 p h
  rw [Nat.sub_zero] at h2 h3
  exact ⟨h2, h3⟩

theorem rawEvidence_length (S : List (List Rat)) (meta : List PatchRecord) (k : Nat)
    (qvecs : List (List Rat)) :
    (rawEvidence S meta k qvecs).length =
      qvecs.length * (if k = 0 then S.length else min k S.length) := by
  unfold rawEvidence
  rw [length_flatMap_const _ _ _ (fun qp _ => emissionsFor_length S meta k qp),
    List.enum_length]

theorem rawEvidence_mem (S : List (List Rat)) (meta : List PatchRecord) (k : Nat)
    (qvecs : List (List Rat)) (e : Evidence) (h : e ∈ rawEvidence S meta k qvecs) :
    ∃ i, i < S.length ∧ e.query_patch_idx < qvecs.length ∧
      e.ref = meta.getD i dummyRecord ∧
      e.sim = (simsOf S (qvecs.getD e.query_patch_idx [])).getD i 0 := by
  unfold rawEvidence at h
  obtain ⟨qp, hqp, he⟩ := List.mem_flatMap.mp h
  obtain ⟨hlt, hval⟩ := mem_enum_getD [] qvecs qp hqp
  obtain ⟨i, hi, rfl⟩ := emissionsFor_mem S meta k qp e he
  exact ⟨i, hi, hlt, rfl, by rw [← hval]⟩

theorem dictGetD_dictSet : ∀ (m : List (String × Rat)) (lab l : String) (v : Rat),
    dictGetD (dictSet m lab v) l 0 = if lab = l then v else dictGetD m l 0
  | [], lab, l, v => by
    by_cases h : lab = l <;> simp [dictSet, dictGetD, h]
  | kv :: rest, lab, l, v => by
    by_cases hk : kv.1 = lab
    · by_cases hl : kv.1 = l
      · have he : lab = l := hk.symm.trans hl
        simp [dictSet, dictGetD, hk, hl, he]
      · have he : ¬ lab = l := fun hc => hl (hk.trans hc)
        simp [dictSet, dictGetD, hk, hl, he]
    · by_cases hl : kv.1 = l
      · have he : ¬ lab = l := fun hc => hk (hl.trans hc.symm)
        have he2 : ¬ l = lab := fun hc => he hc.symm
        simp [dictSet, dictGetD, hk, hl, he, he2]
      · simp [dictSet, dictGetD, hk, hl, dictGetD_dictSet rest lab l v]

theorem dictLookup_dictSet : ∀ (m : List (String × Rat)) (lab l : String) (v : Rat),
    dictLookup (dictSet m lab v) l = if lab = l then some v else dictLookup m l
  | [], lab, l, v => by
    by_cases h : lab = l <;> simp [dictSet, dictLookup, h]
  | kv :: rest, lab, l, v => by
    by_cases hk : kv.1 = lab
    · by_cases hl : kv.1 = l
      · have he : lab = l := hk.symm.trans hl
        simp [dictSet, dictLookup, hk, hl, he]
      · have he : ¬ lab = l := fun hc => hl (hk.trans hc)
        simp [dictSet, dictLookup, hk, hl, he]
    · by_cases hl : kv.1 = l
      · have he : ¬ lab = l := fun hc => hk (hl.trans hc.symm)
        have he2 : ¬ l = lab := fun hc => he hc.symm
        simp [dictSet, dictLookup, hk, hl, he, he2]
      · simp [dictSet, dictLookup, hk, hl, dictLookup_dictSet rest lab l v]

theorem dictLookup_scoreFold (es : List Evidence) :
    ∀ (m : List (String × Rat)) (l : String),
      dictLookup (es.foldl scoreStep m) l =
        if es.any (fun e => decide (e.ref.label = l)) then
          some (dictGetD m l 0 +
            ((es.filter (fun e => decide (e.ref.label = l))).map Evidence.sim).sum)
        else dictLookup m l := by
  induction es with
  | nil =>
    intro m l
    simp
  | cons e es ih =>
    intro m l
    rw [List.foldl_cons, ih, List.any_cons, List.filter_cons]
    show (if es.any (fun e => decide (e.ref.label = l)) = true then
        some (dictGetD (dictSet m e.ref.label (dictGetD m e.ref.label 0 + e.sim)) l 0 +
          ((es.filter (fun e => decide (e.ref.label = l))).map Evidence.sim).sum)
      else dictLookup (dictSet m e.ref.label (dictGetD m e.ref.label 0 + e.sim)) l) = _
    rw [dictGetD_dictSet, dictLookup_dictSet]
    by_cases hel : e.ref.label = l
    · have hPe : (decide (e.ref.label = l)) = true := decide_eq_true hel
      rw [if_pos hel, if_pos hel, hel,
        show (decide (l = l)) = true from decide_eq_true rfl, Bool.true_or,
        if_pos rfl, if_pos rfl, List.map_cons, List.sum_cons]
      by_cases hany : es.any (fun e => decide (e.ref.label = l)) = true
      · rw [if_pos hany, add_assoc]
      · rw [if_neg hany]
        have hnil : es.filter (fun e => decide (e.ref.label = l)) = [] := by
          refine List.filter_eq_nil_iff.mpr ?_
          intro a ha hpa
          exact hany (List.any_eq_true.mpr ⟨a, ha, hpa⟩)
        rw [hnil, List.map_nil, List.sum_nil, add_zero]
    · have hPe : (decide (e.ref.label = l)) = false := by simp [hel]
      rw [if_neg hel, if_neg hel, hPe, Bool.false_or,
        if_neg (show ¬ (false = true) by simp)]

theorem dictLookup_classScoreOf (S : List (List Rat)) (meta : List PatchRecord) (k : Nat)
    (qvecs : List (List Rat)) (l : String) :
    dictLookup (classScoreOf S meta k qvecs) l =
      if (rawEvidence S meta k qvecs).any (fun e => decide (e.ref.label = l)) then
        some (((rawEvidence S meta k qvecs).filter
          (fun e => decide (e.ref.label = l))).map Evidence.sim).sum
      else none := by
  unfold classScoreOf
  rw [dictLookup_scoreFold]
  by_cases h : (rawEvidence S meta k qvecs).any (fun e => decide (e.ref.label = l)) = true
  · rw [if_pos h, if_pos h]
    show some (0 + _) = _
    rw [zero_add]
  · rw [if_neg h, if_neg h]
    rfl

theorem zipWith_mul_sum_eq (a : List Rat) :
    ∀ b : List Rat, (List.zipWith (fun x y => x * y) a b).sum =
      ∑ i ∈ Finset.range (min a.length b.length), a.getD i 0 * b.getD i 0 := by
  induction a with
  | nil =>
    intro b
    simp
  | cons x a ih =>
    intro b
    cases b with
    | nil => simp
    | cons y b =>
      rw [List.zipWith_cons_cons, List.sum_cons, ih b]
      rw [show min (x :: a).length (y :: b).length = min a.length b.length + 1 from by
        simp only [List.length_cons]
        exact Nat.succ_min_succ a.length b.length]
      rw [Finset.sum_range_succ']
      simp only [List.getD_cons_succ, List.getD_cons_zero]
      rw [add_comm]

theorem map_sq_sum_eq_range (a : List Rat) :
    (a.map (fun x => x ^ 2)).sum = ∑ i ∈ Finset.range a.length, a.getD i 0 ^ 2 := by
  induction a with
  | nil => simp
  | cons x a ih =>
    rw [List.map_cons, List.sum_cons, ih, List.length_cons, Finset.sum_range_succ']
    simp only [List.getD_cons_succ, List.getD_cons_zero]
    rw [add_comm]

theorem range_sq_le_sumSq (a : List Rat) (n : Nat) (hn : n ≤ a.length) :
    ∑ i ∈ Finset.range n, a.getD i 0 ^ 2 ≤ sumSq a := by
  rw [sumSq, map_sq_sum_eq_range]
  apply Finset.sum_le_sum_of_subset_of_nonneg (Finset.range_subset.mpr hn)
  intro i _ _
  exact sq_nonneg _

theorem sumSq_nonneg (a : List Rat) : 0 ≤ sumSq a := by
  rw [sumSq]
  apply List.sum_nonneg
  intro x hx
  obtain ⟨y, _, rfl⟩ := List.mem_map.mp hx
  exact sq_nonneg y

theorem dotQ_sq_le (a b : List Rat) : dotQ a b ^ 2 ≤ sumSq a * sumSq b := by
  rw [dotQ, zipWith_mul_sum_eq]
  refine le_trans (Finset.sum_mul_sq_le_sq_mul_sq _ _ _) ?_
  apply mul_le_mul (range_sq_le_sumSq a _ (Nat.min_le_left _ _))
    (range_sq_le_sumSq b _ (Nat.min_le_right _ _))
    (Finset.sum_nonneg (fun i _ => sq_nonneg _))
    (sumSq_nonneg a)

/-- Cosine bound: the dot product of two unit vectors lies in [-1, 1]
(holds even when the vectors have different lengths, since the zipped partial
sums of squares are bounded by the full ones). -/
theorem dotQ_unit_bound (a b : List Rat) (ha : sumSq a = 1) (hb : sumSq b = 1) :
    -1 ≤ dotQ a b ∧ dotQ a b ≤ 1 := by
  have h := dotQ_sq_le a b
  rw [ha, hb, mul_one] at h
  exact abs_le.mp ((sq_le_one_iff_abs_le_one (dotQ a b)).mp h)

theorem getD_map_of_lt {α β : Type} (f : α → β) (l : List α) (i : Nat) (d : α) (db : β)
    (h : i < l.length) : (l.map f).getD i db = f (l.getD i d) := by
  rw [List.getD_eq_getElem?_getD, List.getD_eq_getElem?_getD, List.getElem?_map,
    List.getElem?_eq_getElem h]
  rfl

theorem getD_mem_of_lt {α : Type} (l : List α) (i : Nat) (d : α) (h : i < l.length) :
    l.getD i d ∈ l := by
  rw [List.getD_eq_getElem?_getD, List.getElem?_eq_getElem h]
  exact List.getElem_mem h

/-- Unfolding equation of `retrieve` once the vectors are present. -/
theorem retrieve_some {Img : Type} (fs : FS Img) (clip : Img → List (List Rat)) (res : Nat)
    (S : List (List Rat)) (meta : List PatchRecord) (query : Img) (k : Nat) :
    retrieve fs clip res { vectors := some S, meta := meta } query k =
      (if meta.isEmpty then Except.error notBuiltMsg
       else
        match getPatchEmbeddings clip (fs.resize query res) with
        | Except.error e => Except.error e
        | Except.ok qvecs =>
          Except.ok (classScoreOf S meta k qvecs,
            List.insertionSort evDesc (rawEvidence S meta k qvecs))) := rfl

theorem retrieve_ok_elim {Img : Type} (fs : FS Img) (clip : Img → List (List Rat))
    (res : Nat) (st : SIState) (S : List (List Rat)) (query : Img) (k : Nat)
    (scores : List (String × Rat)) (ev : List Evidence)
    (hv : st.vectors = some S)
    (hretr : retrieve fs clip res st query k = Except.ok (scores, ev)) :
    scores = classScoreOf S st.meta k (clip (fs.resize query res)) ∧
    ev = List.insertionSort evDesc (rawEvidence S st.meta k (clip (fs.resize query res))) := by
  obtain ⟨vecs, meta⟩ := st
  change vecs = some S at hv
  subst hv
  rw [retrieve_some] at hretr
  by_cases hm : meta.isEmpty = true
  · rw [if_pos hm] at hretr
    cases hretr
  · rw [if_neg hm] at hretr
    cases hq : getPatchEmbeddings clip (fs.resize query res) with
    | error e =>
      rw [hq] at hretr
      cases hretr
    | ok qvecs =>
      rw [hq] at hretr
      have hqv := getPatchEmbeddings_ok_inv clip (fs.resize query res) qvecs hq
      injection hretr with hpair
      injection hpair with h1 h2
      subst hqv
      exact ⟨h1.symm, h2.symm⟩

/-- C2: for a built index with unit-normalized support rows and a query whose
patch vectors are unit-normalized, `retrieve(query, k)` with `1 ≤ k ≤ N`
(a) gives every evidence item the dot product of its query patch vector with
a support row as similarity, a value in [-1, 1]; (b) returns exactly Q × k
evidence items; (c) returns as class score, for exactly the labels occurring
in the evidence, the sum of the similarities of that label's evidence items;
(d) returns the evidence globally sorted by similarity, descending. -/
theorem c2_retrieve_scoring {Img : Type} (fs : FS Img) (clip : Img → List (List Rat))
    (res : Nat) (st : SIState) (S : List (List Rat)) (query : Img) (k : Nat)
    (scores : List (String × Rat)) (ev : List Evidence)
    (hv : st.vectors = some S)
    (hmeta : st.meta.length = S.length)
    (hrows : ∀ row ∈ S, sumSq row = 1)
    (hq : ∀ qv ∈ clip (fs.resize query res), sumSq qv = 1)
    (hk1 : 1 ≤ k) (hkN : k ≤ S.length)
    (hretr : retrieve fs clip res st query k = Except.ok (scores, ev)) :
    (∀ e ∈ ev, ∃ i, i < S.length ∧ e.ref = st.meta.getD i dummyRecord ∧
      e.query_patch_idx < (clip (fs.resize query res)).length ∧
      e.sim = dotQ (S.getD i []) ((clip (fs.resize query res)).getD e.query_patch_idx []) ∧
      -1 ≤ e.sim ∧ e.sim ≤ 1) ∧
    ev.length = (clip (fs.resize query res)).length * k ∧
    (∀ l, dictLookup scores l =
      if ev.any (fun e => decide (e.ref.label = l)) then
        some (((ev.filter (fun e => decide (e.ref.label = l))).map Evidence.sim).sum)
      else none) ∧
    ev.Pairwise evDesc := by
  obtain ⟨hsc, hev⟩ := retrieve_ok_elim fs clip res st S query k scores ev hv hretr
  subst hsc
  subst hev
  have hperm := List.perm_insertionSort evDesc
    (rawEvidence S st.meta k (clip (fs.resize query res)))
  refine ⟨?_, ?_, ?_, List.sorted_insertionSort evDesc _⟩
  · intro e he
    have hmem : e ∈ rawEvidence S st.meta k (clip (fs.resize query res)) :=
      hperm.mem_iff.mp he
    obtain ⟨i, hi, hqlt, href, hsim⟩ :=
      rawEvidence_mem S st.meta k (clip (fs.resize query res)) e hmem
    have hs : (simsOf S ((clip (fs.resize query res)).getD e.query_patch_idx [])).getD i 0 =
        dotQ (S.getD i [])
          ((clip (fs.resize query res)).getD e.query_patch_idx []) := by
      unfold simsOf
      exact getD_map_of_lt _ S i [] 0 hi
    have hbound := dotQ_unit_bound (S.getD i [])
      ((clip (fs.resize query res)).getD e.query_patch_idx [])
      (hrows _ (getD_mem_of_lt S i [] hi))
      (hq _ (getD_mem_of_lt _ _ [] hqlt))
    refine ⟨i, hi, href, hqlt, ?_, ?_, ?_⟩
    · rw [hsim, hs]
    · rw [hsim, hs]
      exact hbound.1
    · rw [hsim, hs]
      exact hbound.2
  · rw [List.length_insertionSort, rawEvidence_length,
      if_neg (by omega : ¬ k = 0), Nat.min_eq_left hkN]
  · intro l
    rw [dictLookup_classScoreOf]
    have hanyiff : ((List.insertionSort evDesc
        (rawEvidence S st.meta k (clip (fs.resize query res)))).any
          (fun e => decide (e.ref.label = l))) =
        ((rawEvidence S st.meta k (clip (fs.resize query res))).any
          (fun e => decide (e.ref.label = l))) := by
      rw [Bool.eq_iff_iff, List.any_eq_true, List.any_eq_true]
      constructor
      · rintro ⟨x, hx, hpx⟩
        exact ⟨x, hperm.mem_iff.mp hx, hpx⟩
      · rintro ⟨x, hx, hpx⟩
        exact ⟨x, hperm.mem_iff.mpr hx, hpx⟩
    have hsum : (((List.insertionSort evDesc
        (rawEvidence S st.meta k (clip (fs.resize query res)))).filter
          (fun e => decide (e.ref.label = l))).map Evidence.sim).sum =
        (((rawEvidence S st.meta k (clip (fs.resize query res))).filter
          (fun e => decide (e.ref.label = l))).map Evidence.sim).sum :=
      ((hperm.filter _).map Evidence.sim).sum_eq
    rw [hanyiff, hsum]

/-- Witness for C2 at the concrete two-row index: the theorem instantiated at
`k = 1` yields the sorted singleton evidence list. -/
theorem c2_witness :
    ([{ query_patch_idx := 0, sim := 1, ref := recA }] : List Evidence).Pairwise evDesc :=
  (c2_retrieve_scoring unitFS clipOne 224 builtState [[1], [-1]] () 1 [("a", 1)]
    [{ query_patch_idx := 0, sim := 1, ref := recA }] rfl rfl (by decide) (by decide)
    (by decide) (by decide) (by decide)).2.2.2

/-- C10: the top-k slice `argsort()[-k:]` selects `min k N` indices for
`k ≥ 1` but the WHOLE index array for `k = 0` (Python `[-0:]` is `[0:]`), so
`retrieve` emits `min k N` evidence items per query patch when `k ≥ 1` and
all `N` support patches per query patch — in descending similarity order —
when `k = 0`. -/
theorem c10_k_zero_retrieves_all {Img : Type} (fs : FS Img) (clip : Img → List (List Rat))
    (res : Nat) (st : SIState) (S : List (List Rat)) (query : Img) (k : Nat)
    (scores : List (String × Rat)) (ev : List Evidence)
    (hv : st.vectors = some S)
    (hretr : retrieve fs clip res st query k = Except.ok (scores, ev)) :
    ev.length = (clip (fs.resize query res)).length *
      (if k = 0 then S.length else min k S.length) ∧
    (∀ qp : Nat × List Rat,
      (emissionsFor S st.meta k qp).length = if k = 0 then S.length else min k S.length) ∧
    (∀ qp : Nat × List Rat, (emissionsFor S st.meta 0 qp).Pairwise evDesc) := by
  obtain ⟨hsc, hev⟩ := retrieve_ok_elim fs clip res st S query k scores ev hv hretr
  subst hev
  exact ⟨by rw [List.length_insertionSort, rawEvidence_length],
    fun qp => emissionsFor_length S st.meta k qp,
    fun qp => emissionsFor_sorted S st.meta 0 qp⟩

/-- Witness for C10: at the concrete two-patch index, `retrieve` with `k = 0`
returns 1 × 2 evidence items (all support patches for the single query
patch). -/
theorem c10_witness :
    ([{ query_patch_idx := 0, sim := 1, ref := recA },
      { query_patch_idx := 0, sim := -1, ref := recB }] : List Evidence).length =
      (clipOne (unitFS.resize () 224)).length *
        (if 0 = 0 then ([[1], [-1]] : List (List Rat)).length else min 0 2) :=
  (c10_k_zero_retrieves_all unitFS clipOne 224 builtState [[1], [-1]] () 0
    [("a", 1), ("b", -1)]
    [{ query_patch_idx := 0, sim := 1, ref := recA },
     { query_patch_idx := 0, sim := -1, ref := recB }] rfl (by decide)).1

end RagVision
